import Mathlib

/-!
A verification development for the declaration-loading and name-resolution
front end in `src/cl/compile.go` (package `cl`): the nested-scope symbol
table, the declaration loader, the worklist-based compilation scheduler and
the package assembler.  Go's pointer-linked mutable state is embedded as
explicit functional state; `log.Panicln` calls become `Except.error`
carrying the panic message, and recoverable errors become `Except`/`Option`
results.
-/

namespace Sched

/-- Scheduler state of `pkgCtx` (src/cl/compile.go:35-40), viewed over a
finite heap of `funcDecl` pointers `Fin k`.  `usedfns` is the worklist;
`used f` is the mutable `used` flag of the funcDecl `f`; `compiled f`
counts how many times the body-lowering operation `f.compile()` has been
invoked on `f` (instrumentation used to state the exactly-once property).

Modelled from the spec: the `funcDecl` record itself is declared outside
`src/cl/compile.go`; per the spec a Function carries a monotone "used"
flag and a "compiled" state, and its body is lowered by an opaque
operation. -/
structure PkgCtx (k : Nat) where
  usedfns : List (Fin k)
  used : Fin k → Bool
  compiled : Fin k → Nat

variable {k : Nat}

/-- Embeds `pkgCtx.use` (src/cl/compile.go:48-54): a no-op when the used
flag is already set; otherwise append the function to the worklist and
set its flag. -/
def use (p : PkgCtx k) (f : Fin k) : PkgCtx k :=
  if p.used f then p
  else ⟨p.usedfns ++ [f], fun g => if g = f then true else p.used g, p.compiled⟩

/-- Calling `use` on the same function `n` times in a row. -/
def useN (p : PkgCtx k) (f : Fin k) : Nat → PkgCtx k
  | 0 => p
  | n + 1 => useN (use p f) f n

/-- Embeds `f.compile()` for the worklist drain.

Modelled from the spec: `funcDecl.compile` is declared outside
`src/cl/compile.go`; per the spec, lowering a body invokes `mark_used`
(`pkgCtx.use`) on each function referenced by a call inside that body.
`G f` lists the callees of `f`, i.e. `G` is the static call graph; the
lowering itself is recorded by bumping the `compiled` counter of `f`. -/
def compileFn (G : Fin k → List (Fin k)) (f : Fin k) (p : PkgCtx k) : PkgCtx k :=
  (G f).foldl use
    ⟨p.usedfns, p.used, fun g => if g = f then p.compiled g + 1 else p.compiled g⟩

/-- Termination measure for the drain loop: twice the number of functions
whose used flag is still false, plus the length of the worklist. -/
def schedMeasure (p : PkgCtx k) : Nat :=
  2 * (Finset.univ.filter (fun i => p.used i = false)).card + p.usedfns.length

lemma use_of_used {p : PkgCtx k} {f : Fin k} (h : p.used f = true) : use p f = p := by
  simp [use, h]

lemma use_of_not_used {p : PkgCtx k} {f : Fin k} (h : p.used f = false) :
    use p f = ⟨p.usedfns ++ [f], fun g => if g = f then true else p.used g, p.compiled⟩ := by
  simp [use, h]

lemma used_use_mono {p : PkgCtx k} {g : Fin k} (f : Fin k) (h : p.used g = true) :
    (use p f).used g = true := by
  cases hf : p.used f
  · rw [use_of_not_used hf]
    by_cases hg : g = f <;> simp [hg, h]
  · rw [use_of_used hf]; exact h

lemma use_use (p : PkgCtx k) (f : Fin k) : use (use p f) f = use p f := by
  cases hf : p.used f
  · rw [use_of_not_used hf]
    have : (if f = f then true else p.used f) = true := by simp
    simp [use, this]
  · rw [use_of_used hf, use_of_used hf]

lemma filter_use_false (p : PkgCtx k) (f : Fin k) (hf : p.used f = false) :
    (Finset.univ.filter (fun i => (if i = f then true else p.used i) = false))
      = (Finset.univ.filter (fun i => p.used i = false)).erase f := by
  ext g
  by_cases hg : g = f
  · subst hg; simp
  · simp [hg]

lemma schedMeasure_use_le (p : PkgCtx k) (f : Fin k) :
    schedMeasure (use p f) ≤ schedMeasure p := by
  cases hf : p.used f
  · have hmem : f ∈ Finset.univ.filter (fun i => p.used i = false) := by simp [hf]
    have hcard : 1 ≤ (Finset.univ.filter (fun i => p.used i = false)).card :=
      Finset.card_pos.mpr ⟨f, hmem⟩
    rw [use_of_not_used hf]
    unfold schedMeasure
    simp only [List.length_append, List.length_singleton]
    rw [filter_use_false p f hf, Finset.card_erase_of_mem hmem]
    omega
  · rw [use_of_used hf]

lemma schedMeasure_foldl_use_le (l : List (Fin k)) :
    ∀ q : PkgCtx k, schedMeasure (l.foldl use q) ≤ schedMeasure q := by
  induction l with
  | nil => intro q; simp
  | cons a l ih =>
    intro q
    calc schedMeasure ((a :: l).foldl use q) = schedMeasure (l.foldl use (use q a)) := rfl
      _ ≤ schedMeasure (use q a) := ih (use q a)
      _ ≤ schedMeasure q := schedMeasure_use_le q a

lemma schedMeasure_compileFn_le (G : Fin k → List (Fin k)) (f : Fin k) (p : PkgCtx k) :
    schedMeasure (compileFn G f p) ≤ schedMeasure p := by
  unfold compileFn
  exact le_trans (schedMeasure_foldl_use_le (G f) _) (by unfold schedMeasure; simp)

lemma schedMeasure_step_lt (G : Fin k → List (Fin k)) (f : Fin k) (p : PkgCtx k)
    (hne : p.usedfns ≠ []) :
    schedMeasure (compileFn G f ⟨p.usedfns.dropLast, p.used, p.compiled⟩) < schedMeasure p := by
  refine lt_of_le_of_lt (schedMeasure_compileFn_le G f _) ?_
  have hlen : 1 ≤ p.usedfns.length := List.length_pos.mpr hne
  unfold schedMeasure
  simp only [List.length_dropLast]
  omega

/-- Embeds `pkgCtx.resolveFuncs` (src/cl/compile.go:56-66): repeatedly pop
the most recently appended function off the worklist and lower its body,
until the worklist is empty.  Totality of this Lean function (by
well-founded recursion on `schedMeasure`) is the termination statement
for the drain loop. -/
def resolveFuncs (G : Fin k → List (Fin k)) (p : PkgCtx k) : PkgCtx k :=
  if hl : p.usedfns = [] then p
  else resolveFuncs G (compileFn G (p.usedfns.getLast hl)
    ⟨p.usedfns.dropLast, p.used, p.compiled⟩)
termination_by schedMeasure p
decreasing_by exact schedMeasure_step_lt G (p.usedfns.getLast hl) p hl

/-- Worklist invariant tying the used flags, the worklist and the
lowering counters together: a used function has been lowered once or sits
in the worklist exactly once, and an unmarked function has never been
lowered and is not enqueued. -/
@[reducible] def Inv (p : PkgCtx k) : Prop :=
  ∀ f, (p.used f = true → p.compiled f + p.usedfns.count f = 1) ∧
    (p.used f = false → p.compiled f = 0 ∧ p.usedfns.count f = 0)

lemma count_append_self (l : List (Fin k)) (f : Fin k) :
    (l ++ [f]).count f = l.count f + 1 := by
  simp

lemma count_append_ne (l : List (Fin k)) {f g : Fin k} (h : g ≠ f) :
    (l ++ [f]).count g = l.count g := by
  simp [List.count_singleton', h]

lemma inv_use {p : PkgCtx k} (f : Fin k) (h : Inv p) : Inv (use p f) := by
  cases hf : p.used f
  · rw [use_of_not_used hf]
    intro g
    by_cases hg : g = f
    · subst hg
      refine ⟨fun _ => ?_, fun hcontr => ?_⟩
      · have h0 := (h g).2 hf
        show p.compiled g + (p.usedfns ++ [g]).count g = 1
        rw [count_append_self, h0.1, h0.2]
      · simp at hcontr
    · refine ⟨fun hu => ?_, fun hu => ?_⟩
      · have hu' : p.used g = true := by simpa [hg] using hu
        show p.compiled g + (p.usedfns ++ [f]).count g = 1
        rw [count_append_ne _ hg]
        exact (h g).1 hu'
      · have hu' : p.used g = false := by simpa [hg] using hu
        show p.compiled g = 0 ∧ (p.usedfns ++ [f]).count g = 0
        rw [count_append_ne _ hg]
        exact (h g).2 hu'
  · rw [use_of_used hf]; exact h

lemma inv_foldl_use (l : List (Fin k)) :
    ∀ q : PkgCtx k, Inv q → Inv (l.foldl use q) := by
  induction l with
  | nil => intro q h; exact h
  | cons a l ih => intro q h; exact ih (use q a) (inv_use a h)

lemma used_foldl_use_mono (l : List (Fin k)) :
    ∀ (q : PkgCtx k) (g : Fin k), q.used g = true → (l.foldl use q).used g = true := by
  induction l with
  | nil => intro q g h; exact h
  | cons a l ih => intro q g h; exact ih (use q a) g (used_use_mono a h)

lemma inv_pop_compile (G : Fin k → List (Fin k)) {p : PkgCtx k} (h : Inv p)
    (hne : p.usedfns ≠ []) :
    Inv (compileFn G (p.usedfns.getLast hne)
      ⟨p.usedfns.dropLast, p.used, p.compiled⟩) := by
  set f := p.usedfns.getLast hne with hfdef
  have hsplit : p.usedfns.dropLast ++ [f] = p.usedfns := List.dropLast_append_getLast hne
  have hcount : p.usedfns.count f = p.usedfns.dropLast.count f + 1 := by
    conv_lhs => rw [← hsplit]
    rw [count_append_self]
  have hfused : p.used f = true := by
    by_contra hcontr
    have hfl : p.used f = false := by
      cases hx : p.used f
      · rfl
      · exact absurd hx hcontr
    have := ((h f).2 hfl).2
    omega
  have hfc := (h f).1 hfused
  have hcf0 : p.compiled f = 0 := by omega
  have hcl0 : p.usedfns.dropLast.count f = 0 := by omega
  unfold compileFn
  apply inv_foldl_use
  intro g
  by_cases hg : g = f
  · subst hg
    refine ⟨fun _ => ?_, fun hcontr => ?_⟩
    · simp [hcf0, hcl0]
    · rw [hfused] at hcontr; simp at hcontr
  · have hcg : p.usedfns.count g = p.usedfns.dropLast.count g := by
      conv_lhs => rw [← hsplit]
      rw [count_append_ne _ hg]
    have hcomp : (if g = f then p.compiled g + 1 else p.compiled g) = p.compiled g := by
      simp [hg]
    refine ⟨fun hu => ?_, fun hu => ?_⟩
    · simp only [hcomp]
      rw [← hcg]
      exact (h g).1 hu
    · simp only [hcomp]
      rw [← hcg]
      exact (h g).2 hu

lemma resolveFuncs_spec (G : Fin k → List (Fin k)) :
    ∀ (N : Nat) (p : PkgCtx k), schedMeasure p ≤ N → Inv p →
      (resolveFuncs G p).usedfns = [] ∧ Inv (resolveFuncs G p) ∧
        (∀ g, p.used g = true → (resolveFuncs G p).used g = true) := by
  intro N
  induction N with
  | zero =>
    intro p hm hinv
    have hnil : p.usedfns = [] := by
      have : p.usedfns.length = 0 := by
        unfold schedMeasure at hm; omega
      exact List.length_eq_zero.mp this
    rw [resolveFuncs, dif_pos hnil]
    exact ⟨hnil, hinv, fun g hg => hg⟩
  | succ N ih =>
    intro p hm hinv
    by_cases hnil : p.usedfns = []
    · rw [resolveFuncs, dif_pos hnil]
      exact ⟨hnil, hinv, fun g hg => hg⟩
    · rw [resolveFuncs, dif_neg hnil]
      have hlt := schedMeasure_step_lt G (p.usedfns.getLast hnil) p hnil
      set q := compileFn G (p.usedfns.getLast hnil)
        ⟨p.usedfns.dropLast, p.used, p.compiled⟩ with hq
      have hmq : schedMeasure q ≤ N := by omega
      have hinvq : Inv q := inv_pop_compile G hinv hnil
      obtain ⟨h1, h2, h3⟩ := ih q hmq hinvq
      refine ⟨h1, h2, fun g hg => h3 g ?_⟩
      rw [hq]
      unfold compileFn
      exact used_foldl_use_mono _ _ g hg

/-- C1: for every finite static call graph `G`, the drain `resolveFuncs`
terminates (it is a total function, by well-founded recursion on
`schedMeasure`) with an empty worklist, and afterwards every function on
which `use` was invoked - directly (so that its flag was set before the
drain) or transitively while lowering bodies - has had its body-lowering
operation invoked exactly once, while a function never marked used was
never lowered.  This holds for arbitrary graphs, including mutual
recursion and cycles. -/
theorem resolveFuncs_lowers_each_used_exactly_once (G : Fin k → List (Fin k))
    (p : PkgCtx k) (h : Inv p) :
    (resolveFuncs G p).usedfns = [] ∧
      (∀ f, p.used f = true → (resolveFuncs G p).used f = true) ∧
      (∀ f, (resolveFuncs G p).used f = true → (resolveFuncs G p).compiled f = 1) ∧
      (∀ f, (resolveFuncs G p).used f = false → (resolveFuncs G p).compiled f = 0) := by
  obtain ⟨h1, h2, h3⟩ := resolveFuncs_spec G (schedMeasure p) p le_rfl h
  refine ⟨h1, h3, fun f hf => ?_, fun f hf => ((h2 f).2 hf).1⟩
  have := (h2 f).1 hf
  rw [h1] at this
  simpa using this

/-- Mutually recursive two-function call graph 0 → 1 → 0. -/
def g2w : Fin 2 → List (Fin 2) := fun i => [i + 1]

/-- Scheduler state after marking function 0 used in a fresh package. -/
def p1w : PkgCtx 2 := use ⟨[], fun _ => false, fun _ => 0⟩ 0

/-- Witness for C1 on the mutually recursive graph 0 → 1 → 0: the drain
empties the worklist and lowers the marked function exactly once. -/
theorem resolveFuncs_lowers_witness :
    (resolveFuncs g2w p1w).usedfns = [] ∧
      (resolveFuncs g2w p1w).used 0 = true ∧
      (resolveFuncs g2w p1w).compiled 0 = 1 :=
  let t := resolveFuncs_lowers_each_used_exactly_once g2w p1w (by decide)
  ⟨t.1, t.2.1 0 (by decide), t.2.2.1 0 (t.2.1 0 (by decide))⟩

/-- C2: calling `use` on the same function `n ≥ 1` times equals calling it
once; the first call on an unmarked function sets the flag and appends the
function to the worklist exactly once; a call on a marked function is a
no-op; and the used flag of every function is monotone (never reset). -/
theorem use_idempotent_monotone (p : PkgCtx k) (f : Fin k) (n : Nat) (hn : 1 ≤ n) :
    useN p f n = use p f ∧
      (p.used f = false → (use p f).used f = true ∧
        (use p f).usedfns = p.usedfns ++ [f] ∧
        (use p f).usedfns.count f = p.usedfns.count f + 1) ∧
      (p.used f = true → use p f = p) ∧
      (∀ g, p.used g = true → (use p f).used g = true) := by
  refine ⟨?_, fun hf => ?_, fun hf => use_of_used hf, fun g hg => used_use_mono f hg⟩
  · obtain ⟨m, rfl⟩ : ∃ m, n = m + 1 := ⟨n - 1, by omega⟩
    clear hn
    induction m generalizing p with
    | zero => rfl
    | succ m ih =>
      show useN (use p f) f (m + 1) = use p f
      rw [ih (use p f), use_use]
  · rw [use_of_not_used hf]
    refine ⟨by simp, rfl, count_append_self _ _⟩

/-- Fresh three-function scheduler state used by the C2 witness. -/
def p2w : PkgCtx 3 := ⟨[], fun _ => false, fun _ => 0⟩

/-- Witness for C2 at a fresh state and `n = 3`: three calls equal one,
the flag is set, and the function is appended exactly once. -/
theorem use_idempotent_witness :
    useN p2w 1 3 = use p2w 1 ∧ (use p2w 1).used 1 = true ∧
      (use p2w 1).usedfns = p2w.usedfns ++ [1] ∧
      (use p2w 1).usedfns.count 1 = p2w.usedfns.count 1 + 1 :=
  let t := use_idempotent_monotone p2w 1 3 (by decide)
  ⟨t.1, (t.2.1 rfl).1, (t.2.1 rfl).2.1, (t.2.1 rfl).2.2⟩

end Sched

namespace Cl

/-- Go `log.Panicln` aborts compilation; the embedding carries the panic
as the error case of `Except String`, and this predicate recognises it. -/
def isPanic {α : Type} : Except String α → Bool
  | .error _ => true
  | .ok _ => false

/-- Association-list embedding of reading a Go `map[string]α`. -/
def lookupA {α : Type} : List (String × α) → String → Option α
  | [], _ => none
  | (key, v) :: ps, n => if key = n then some v else lookupA ps n

/-- Association-list embedding of a Go map assignment `m[k] = v`
(insert-or-overwrite). -/
def mapInsert {α : Type} : List (String × α) → String → α → List (String × α)
  | [], key, v => [(key, v)]
  | (key', v') :: ps, key, v =>
    if key' = key then (key, v) :: ps else (key', v') :: mapInsert ps key v

lemma lookupA_mapInsert_self {α : Type} (m : List (String × α)) (key : String) (v : α) :
    lookupA (mapInsert m key v) key = some v := by
  induction m with
  | nil => simp [mapInsert, lookupA]
  | cons p ps ih =>
    obtain ⟨key', v'⟩ := p
    by_cases h : key' = key
    · simp [mapInsert, lookupA, h]
    · simp [mapInsert, lookupA, h, ih]

lemma lookupA_mapInsert_ne {α : Type} (m : List (String × α)) {key n : String} (v : α)
    (h : n ≠ key) : lookupA (mapInsert m key v) n = lookupA m n := by
  have h' : ¬key = n := fun hc => h hc.symm
  induction m with
  | nil => simp [mapInsert, lookupA, h']
  | cons p ps ih =>
    obtain ⟨key', v'⟩ := p
    by_cases hk : key' = key
    · subst hk
      simp [mapInsert, lookupA, h']
    · simp only [mapInsert, if_neg hk]
      by_cases hn : key' = n
      · simp [lookupA, hn]
      · simp [lookupA, hn, ih]

/-- Modelled from the spec: `reflect.Type` is external to this core; a
semantic type is opaque data here. -/
abbrev Typ := String

/-- Modelled from the spec: `exec.Var` is external to this core; per the
spec a Variable holds a semantic type, a name, and a storage address
(scope depth + slot index) set once by `SetAddr` at declaration time.
The slot index is a Go `uint32`, kept here as the wrapped number below
`2 ^ 32` that the source's `uint32(...)` conversion produces. -/
structure ExecVar where
  typ : Typ
  name : String
  depth : Nat
  idx : Nat
deriving DecidableEq

/-- Modelled from the spec: a parsed function body is opaque to this core
(body lowering is an external collaborator); lowering observes only the
functions referenced by calls inside the body, so a body is kept as that
list of called names. -/
abbrev FBody := List String

/-- Modelled from the spec: `methodDecl` is declared outside
`src/cl/compile.go`; per the spec a Method holds a receiver name, a
by-reference receiver flag, an unlowered body and its originating file
context (here an index into the file heap). -/
structure MethodDecl where
  recv : String
  pointer : Bool
  body : FBody
  file : Nat
deriving DecidableEq

/-- Modelled from the spec: `typeDecl` is declared outside
`src/cl/compile.go`; per the spec a Type holds an is-alias flag and a
map from method name to Method.  The Go zero value `new(typeDecl)` has
`Alias = false` and a nil `Methods` map, embedded as the empty list. -/
structure TypeDecl where
  Alias : Bool
  Methods : List (String × MethodDecl)
deriving DecidableEq

/-- Modelled from the spec: `funcDecl` / `newFuncDecl` are declared
outside `src/cl/compile.go`; per the spec a Function holds a name, an
unlowered body, its originating file context (a file index), and a used
flag that starts out false. -/
structure FuncDecl where
  name : String
  body : FBody
  file : Nat
  used : Bool
deriving DecidableEq

/-- The `iSymbol` catch-all value (src/cl/compile.go:79-84): varName ↦
exec.Var, pkgName ↦ pkgPath string, funcName ↦ funcDecl, typeName ↦
typeDecl. -/
inductive ISymbol : Type where
  | var (v : ExecVar)
  | pkgPath (path : String)
  | fn (f : FuncDecl)
  | typ (t : TypeDecl)
deriving DecidableEq

/-- The fileCtx import table (src/cl/compile.go:68-75); the embedded
global blockCtx pointer is threaded explicitly by every operation. -/
structure FileCtx where
  imports : List (String × String)
deriving DecidableEq

/-- Shared compilation state outside the scope chain: the heap of fileCtx
values created so far (fileCtx pointers become indices into this list)
and the emission backend's current nesting depth (`p.out.NestDepth`; the
`exec.Builder` itself is an external collaborator, modelled from the
spec as exposing a current nesting depth). -/
structure CompSt where
  files : List FileCtx
  nestDepth : Nat
deriving DecidableEq

/-- Import table of the fileCtx at heap index `i`. -/
def importsOf (st : CompSt) (i : Nat) : List (String × String) :=
  (st.files.getD i ⟨[]⟩).imports

/-- blockCtx (src/cl/compile.go:86-110): a lexical scope holding a symbol
map, the ordered variable list, the file pointer (an index into
`CompSt.files`; `none` embeds the nil file pointer of a freshly created
global blockCtx) and an optional parent scope. -/
inductive BlockCtx : Type where
  | mk (syms : List (String × ISymbol)) (vlist : List ExecVar)
      (file : Option Nat) (parent : Option BlockCtx)

def BlockCtx.syms : BlockCtx → List (String × ISymbol)
  | .mk s _ _ _ => s

def BlockCtx.vlist : BlockCtx → List ExecVar
  | .mk _ v _ _ => v

def BlockCtx.file : BlockCtx → Option Nat
  | .mk _ _ f _ => f

def BlockCtx.parent : BlockCtx → Option BlockCtx
  | .mk _ _ _ q => q

def BlockCtx.setSyms : BlockCtx → List (String × ISymbol) → BlockCtx
  | .mk _ v f q, s => .mk s v f q

def BlockCtx.setFile : BlockCtx → Option Nat → BlockCtx
  | .mk s v _ q, f => .mk s v f q

/-- The scope-walking loop of blockCtx.find (the `for ; p != nil` loop
over `p.syms`, src/cl/compile.go:124-128): check this scope's symbol
map, else continue at the parent until the chain ends. -/
def symsChainFind : BlockCtx → String → Option ISymbol
  | .mk syms _ _ none, n => lookupA syms n
  | .mk syms _ _ (some q), n =>
    match lookupA syms n with
    | some s => some s
    | none => symsChainFind q n

/-- Embeds blockCtx.find (src/cl/compile.go:122-131): walk the scope
chain from the receiver outward; only on failure fall back to the import
table of the file owning the scope where the walk started.  (With a nil
file pointer Go would dereference nil there; that state is unreachable
in the package flow and yields `none` here.) -/
def BlockCtx.find (st : CompSt) (p : BlockCtx) (n : String) : Option ISymbol :=
  match symsChainFind p n with
  | some s => some s
  | none =>
    match p.file with
    | some i => (lookupA (importsOf st i) n).map ISymbol.pkgPath
    | none => none

/-- The recoverable error values of src/cl/compile.go:16-31. -/
inductive GoErr : Type where
  | ErrNotFound
  | ErrMainFuncNotFound
  | ErrSymbolNotVariable
  | ErrSymbolNotFunc
  | ErrSymbolNotType
deriving DecidableEq

/-- Embeds blockCtx.findType (src/cl/compile.go:133-142). -/
def BlockCtx.findType (st : CompSt) (p : BlockCtx) (n : String) : Except GoErr TypeDecl :=
  match p.find st n with
  | none => .error .ErrNotFound
  | some (.typ t) => .ok t
  | some _ => .error .ErrSymbolNotType

/-- Embeds blockCtx.findFunc (src/cl/compile.go:144-153). -/
def BlockCtx.findFunc (st : CompSt) (p : BlockCtx) (n : String) : Except GoErr FuncDecl :=
  match p.find st n with
  | none => .error .ErrNotFound
  | some (.fn f) => .ok f
  | some _ => .error .ErrSymbolNotFunc

/-- Embeds blockCtx.findVar (src/cl/compile.go:155-164). -/
def BlockCtx.findVar (st : CompSt) (p : BlockCtx) (n : String) : Except GoErr ExecVar :=
  match p.find st n with
  | none => .error .ErrNotFound
  | some (.var v) => .ok v
  | some _ => .error .ErrSymbolNotVariable

/-- Embeds blockCtx.exists (src/cl/compile.go:112-120; the Go name
`exists` is a reserved word in Lean): bound in this scope's symbol map,
or - only for the global blockCtx - in the owning file's import table. -/
def BlockCtx.existsB (st : CompSt) (p : BlockCtx) (n : String) : Bool :=
  if (lookupA p.syms n).isSome then true
  else
    match p.parent with
    | none =>
      match p.file with
      | some i => (lookupA (importsOf st i) n).isSome
      | none => false
    | some _ => false

/-- Embeds blockCtx.insertVar (src/cl/compile.go:166-176): fatal if the
name already exists; otherwise allocate the next slot of this scope's
variable list at the backend's current nesting depth, insert and return
the variable.  The source computes `idx := uint32(len(p.vlist))`: the
conversion to uint32 wraps, embedded as reduction modulo `2 ^ 32`. -/
def BlockCtx.insertVar (st : CompSt) (p : BlockCtx) (n : String) (t : Typ) :
    Except String (BlockCtx × ExecVar) :=
  if p.existsB st n then .error "insertVar failed: symbol exists"
  else
    let v : ExecVar := ⟨t, n, st.nestDepth, p.vlist.length % 2 ^ 32⟩
    .ok (.mk (mapInsert p.syms n (.var v)) (p.vlist ++ [v]) p.file p.parent, v)

/-- Embeds blockCtx.insertFunc (src/cl/compile.go:178-183). -/
def BlockCtx.insertFunc (st : CompSt) (p : BlockCtx) (n : String) (fd : FuncDecl) :
    Except String BlockCtx :=
  if p.existsB st n then .error "insertFunc failed: symbol exists"
  else .ok (p.setSyms (mapInsert p.syms n (.fn fd)))

/-- Embeds blockCtx.insertMethod (src/cl/compile.go:185-206): global
scope only; resolve the type name, creating a zero-value placeholder
typeDecl when nothing of that name exists; fatal when the name resolves
to a non-type, to an alias type, or to a type already having the method;
otherwise insert into the method map (the nil-map and the
empty-after-lookup branches of the Go code coincide on the association
list model). -/
def BlockCtx.insertMethod (st : CompSt) (p : BlockCtx) (typeName methodName : String)
    (m : MethodDecl) : Except String BlockCtx :=
  if p.parent.isSome then
    .error "insertMethod failed: unexpected - non global method declaration?"
  else
    match p.findType st typeName with
    | .error .ErrNotFound =>
      .ok (p.setSyms (mapInsert p.syms typeName (.typ ⟨false, [(methodName, m)]⟩)))
    | .error _ => .error "insertMethod failed: symbol exists but not a type"
    | .ok t =>
      if t.Alias then .error "insertMethod failed: alias?"
      else if (lookupA t.Methods methodName).isSome then
        .error "insertMethod failed: method exists"
      else
        .ok (p.setSyms (mapInsert p.syms typeName
          (.typ ⟨t.Alias, mapInsert t.Methods methodName m⟩)))

/-- Sequence of insertVar calls on one scope (used to state the
slot-numbering property). -/
def insertVars (st : CompSt) (p : BlockCtx) : List (String × Typ) → Except String BlockCtx
  | [] => .ok p
  | (n, t) :: rest => do
    let (p', _) ← p.insertVar st n t
    insertVars st p' rest

/-- The ast.ImportSpec data used by loadImport: optional alias name and
the (unquoted) package path. -/
structure ImportSpec where
  name : Option String
  path : String
deriving DecidableEq

/-- Modelled from the spec: astutil.ToRecv is external; a receiver has a
name, the receiver type's name, and a pointer flag. -/
structure Recv where
  name : String
  typeName : String
  pointer : Bool
deriving DecidableEq

/-- Top-level declarations distinguished by loadFile
(src/cl/compile.go:246-270): functions (with an optional receiver), the
GenDecl groups for imports, types, consts and vars, and an unrecognised
kind (the two fatal default branches of loadFile). -/
inductive Decl : Type where
  | funcD (name : String) (recv : Option Recv) (body : FBody)
  | importD (specs : List ImportSpec)
  | typeD
  | constD
  | varD
  | unknownD
deriving DecidableEq

/-- An ast.File: its ordered top-level declarations. -/
structure File where
  decls : List Decl
deriving DecidableEq

/-- Embeds Go path.Base as invoked by loadImport on unaliased imports. -/
def pathBase (s : String) : String :=
  if s = "" then "."
  else
    let rcs := s.data.reverse.dropWhile (fun c => c = '/')
    let last := rcs.takeWhile (fun c => c ≠ '/')
    if last.isEmpty then "/" else ⟨last.reverse⟩

/-- Replaces the import table of the fileCtx at heap index `i`. -/
def setImports (st : CompSt) (i : Nat) (imps : List (String × String)) : CompSt :=
  ⟨st.files.set i ⟨imps⟩, st.nestDepth⟩

/-- Embeds loadImport (src/cl/compile.go:278-291): bind the alias (fatal
for the unimplemented "_" and "." forms) or the path's base name to the
package path in the current file's import table. -/
def loadImport (st : CompSt) (idx : Nat) (spec : ImportSpec) : Except String CompSt := do
  let name ← match spec.name with
    | some n => if n = "_" ∨ n = "." then .error "not impl" else pure n
    | none => pure (pathBase spec.path)
  pure (setImports st idx (mapInsert (importsOf st idx) name spec.path))

/-- Embeds loadImports (src/cl/compile.go:272-276). -/
def loadImports (st : CompSt) (idx : Nat) : List ImportSpec → Except String CompSt
  | [] => .ok st
  | spec :: rest => do
    let st' ← loadImport st idx spec
    loadImports st' idx rest

/-- Embeds loadFunc (src/cl/compile.go:314-330): receiver functions
become methods; the module-initializer name is fatal (unimplemented);
anything else registers a fresh funcDecl at package scope. -/
def loadFunc (st : CompSt) (ctx : BlockCtx) (idx : Nat) (name : String)
    (recv : Option Recv) (body : FBody) : Except String BlockCtx :=
  match recv with
  | some r => ctx.insertMethod st r.typeName name ⟨r.name, r.pointer, body, idx⟩
  | none =>
    if name = "init" then .error "loadFunc TODO: init"
    else ctx.insertFunc st name ⟨name, body, idx, false⟩

/-- One iteration of loadFile's declaration switch
(src/cl/compile.go:249-269); loadTypes/loadConsts/loadVars are the
deliberate semantic no-op stubs of the source. -/
def loadDecl (st : CompSt) (ctx : BlockCtx) (idx : Nat) :
    Decl → Except String (CompSt × BlockCtx)
  | .funcD name recv body => do
    let ctx' ← loadFunc st ctx idx name recv body
    .ok (st, ctx')
  | .importD specs => do
    let st' ← loadImports st idx specs
    .ok (st', ctx)
  | .typeD => .ok (st, ctx)
  | .constD => .ok (st, ctx)
  | .varD => .ok (st, ctx)
  | .unknownD => .error "gopkg.Package.load: unknown decl"

/-- Processes a file's declarations in order. -/
def loadDecls (st : CompSt) (ctx : BlockCtx) (idx : Nat) :
    List Decl → Except String (CompSt × BlockCtx)
  | [] => .ok (st, ctx)
  | d :: ds => do
    let (st', ctx') ← loadDecl st ctx idx d
    loadDecls st' ctx' idx ds

/-- Embeds loadFile (src/cl/compile.go:246-270): allocate a fresh fileCtx
on the heap, point the global block's file at it, then process the
declarations in order. -/
def loadFile (st : CompSt) (g : BlockCtx) (f : File) :
    Except String (CompSt × BlockCtx) :=
  loadDecls ⟨st.files ++ [⟨[]⟩], st.nestDepth⟩ (g.setFile (some st.files.length))
    st.files.length f.decls

/-- The per-file loading loop of NewPackage (src/cl/compile.go:221-223). -/
def loadFiles (st : CompSt) (g : BlockCtx) : List File → Except String (CompSt × BlockCtx)
  | [] => .ok (st, g)
  | f :: fs => do
    let (st', g') ← loadFile st g f
    loadFiles st' g' fs

/-- The compilation artifact (src/cl/compile.go:211-214). -/
structure Package where
  vlist : List ExecVar
  syms : List (String × ISymbol)
deriving DecidableEq

/-- Embeds NewPackage (src/cl/compile.go:217-239).  The opaque lowering
of the entry point's body together with the subsequent worklist drain
(compileBlockStmt, which is declared outside `src/cl/compile.go`, then
resolveFuncs) is abstracted as the `lower` parameter, following the
spec's treatment of body lowering as an atomic external operation; the
theorems below hold for every such `lower`.  `nd` is the nesting depth
of the provided emission backend.  A recoverable error is returned in
the `Option GoErr` component next to the (then empty) Package, exactly
as the Go code returns `p, err`; a fatal panic is the `Except.error`
case, where no Package value is produced at all. -/
def NewPackage (lower : CompSt → BlockCtx → FBody → CompSt × BlockCtx)
    (nd : Nat) (pkgName : String) (files : List File) :
    Except String (Package × Option GoErr) := do
  let (st, ctx) ← loadFiles ⟨[], nd⟩ (.mk [] [] none none) files
  if pkgName = "main" then
    match ctx.findFunc st "main" with
    | .error e =>
      .ok (⟨[], []⟩, some (if e = .ErrNotFound then .ErrMainFuncNotFound else e))
    | .ok entry =>
      let ctx' := (lower st (ctx.setFile (some entry.file)) entry.body).2
      .ok (⟨ctx'.vlist, ctx'.syms⟩, none)
  else
    .ok (⟨ctx.vlist, ctx.syms⟩, none)

lemma bind_ok {α β : Type} (a : α) (f : α → Except String β) :
    (Except.ok a : Except String α) >>= f = f a := rfl

lemma bind_err {α β : Type} (e : String) (f : α → Except String β) :
    (Except.error e : Except String α) >>= f = Except.error e := rfl

lemma mk_syms (s : List (String × ISymbol)) (v : List ExecVar) (f : Option Nat)
    (q : Option BlockCtx) : (BlockCtx.mk s v f q).syms = s := rfl

lemma mk_vlist (s : List (String × ISymbol)) (v : List ExecVar) (f : Option Nat)
    (q : Option BlockCtx) : (BlockCtx.mk s v f q).vlist = v := rfl

lemma setSyms_syms (p : BlockCtx) (s : List (String × ISymbol)) :
    (p.setSyms s).syms = s := by cases p; rfl

lemma setSyms_parent (p : BlockCtx) (s : List (String × ISymbol)) :
    (p.setSyms s).parent = p.parent := by cases p; rfl

lemma setSyms_file (p : BlockCtx) (s : List (String × ISymbol)) :
    (p.setSyms s).file = p.file := by cases p; rfl

lemma setSyms_vlist (p : BlockCtx) (s : List (String × ISymbol)) :
    (p.setSyms s).vlist = p.vlist := by cases p; rfl

lemma setFile_syms (p : BlockCtx) (f : Option Nat) :
    (p.setFile f).syms = p.syms := by cases p; rfl

lemma setFile_parent (p : BlockCtx) (f : Option Nat) :
    (p.setFile f).parent = p.parent := by cases p; rfl

lemma setFile_vlist (p : BlockCtx) (f : Option Nat) :
    (p.setFile f).vlist = p.vlist := by cases p; rfl

lemma setFile_file (p : BlockCtx) (f : Option Nat) :
    (p.setFile f).file = f := by cases p; rfl

lemma symsChainFind_head_some {p : BlockCtx} {n : String} {s : ISymbol}
    (h : lookupA p.syms n = some s) : symsChainFind p n = some s := by
  cases p with
  | mk syms v f q =>
    rw [mk_syms] at h
    cases q <;> simp [symsChainFind, h]

lemma symsChainFind_parent {syms : List (String × ISymbol)} {vl : List ExecVar}
    {f : Option Nat} {q : BlockCtx} {n : String} (h : lookupA syms n = none) :
    symsChainFind (.mk syms vl f (some q)) n = symsChainFind q n := by
  simp [symsChainFind, h]

lemma symsChainFind_parent_none {p : BlockCtx} {n : String} (h : p.parent = none) :
    symsChainFind p n = lookupA p.syms n := by
  cases p with
  | mk syms v f q =>
    simp only [BlockCtx.parent] at h
    subst h
    simp [symsChainFind, mk_syms]

lemma find_of_chain_some (st : CompSt) {p : BlockCtx} {n : String} {s : ISymbol}
    (h : symsChainFind p n = some s) : p.find st n = some s := by
  simp [BlockCtx.find, h]

lemma find_of_chain_none (st : CompSt) {p : BlockCtx} {n : String}
    (h : symsChainFind p n = none) {i : Nat} (hf : p.file = some i) :
    p.find st n = (lookupA (importsOf st i) n).map ISymbol.pkgPath := by
  simp [BlockCtx.find, h, hf]

/-- C3: blockCtx.find searches the starting scope's symbol map first,
then delegates outward through the enclosing scopes; the import table of
the file owning the starting scope is consulted only when no scope in
the chain binds the name; consequently an inner binding shadows any
outer binding of the same name. -/
theorem find_innermost_first_shadowing (st : CompSt) (p q : BlockCtx)
    (syms : List (String × ISymbol)) (vl : List ExecVar) (fo : Option Nat) (n : String) :
    (∀ s, lookupA p.syms n = some s → p.find st n = some s) ∧
    (lookupA syms n = none →
      symsChainFind (.mk syms vl fo (some q)) n = symsChainFind q n) ∧
    (symsChainFind p n ≠ none → p.find st n = symsChainFind p n) ∧
    (symsChainFind p n = none → ∀ i path, p.file = some i →
      lookupA (importsOf st i) n = some path → p.find st n = some (.pkgPath path)) ∧
    (∀ sI sO, lookupA syms n = some sI → lookupA q.syms n = some sO →
      BlockCtx.find st (.mk syms vl fo (some q)) n = some sI ∧ q.find st n = some sO) := by
  refine ⟨?_, ?_, ?_, ?_, ?_⟩
  · intro s h
    exact find_of_chain_some st (symsChainFind_head_some h)
  · intro h
    exact symsChainFind_parent h
  · intro h
    obtain ⟨s, hs⟩ := Option.ne_none_iff_exists'.mp h
    rw [find_of_chain_some st hs, hs]
  · intro h i path hf him
    rw [find_of_chain_none st h hf, him]
    rfl
  · intro sI sO hI hO
    constructor
    · exact find_of_chain_some st (symsChainFind_head_some (by rw [mk_syms]; exact hI))
    · exact find_of_chain_some st (symsChainFind_head_some hO)

/-- Outer scope binding the name "x" for the C3 witness. -/
def c3q : BlockCtx := .mk [("x", .pkgPath "outer")] [] none none

/-- Inner scope shadowing "x", whose file (index 0) imports "y". -/
def c3p : BlockCtx := .mk [("x", .pkgPath "inner")] [] (some 0) (some c3q)

/-- Compilation state with one file importing "y" for the C3 witness. -/
def c3st : CompSt := ⟨[⟨[("y", "p/y")]⟩], 0⟩

/-- Witness for C3: from the inner scope the inner binding of "x" wins,
from the outer scope the outer one; the unbound name "y" falls back to
the starting scope's file import table. -/
theorem find_shadowing_witness :
    BlockCtx.find c3st c3p "x" = some (.pkgPath "inner") ∧
    BlockCtx.find c3st c3q "x" = some (.pkgPath "outer") ∧
    BlockCtx.find c3st c3p "y" = some (.pkgPath "p/y") :=
  ⟨((find_innermost_first_shadowing c3st c3p c3q [] [] none "x").1 _ rfl),
   ((find_innermost_first_shadowing c3st c3q c3q [] [] none "x").1 _ rfl),
   ((find_innermost_first_shadowing c3st c3p c3q [] [] none "y").2.2.2.1 rfl 0 "p/y" rfl rfl)⟩

lemma existsB_of_lookup_isSome {st : CompSt} {p : BlockCtx} {n : String}
    (h : (lookupA p.syms n).isSome = true) : p.existsB st n = true := by
  simp [BlockCtx.existsB, h]

lemma insertVar_panic_of_exists {st : CompSt} {p : BlockCtx} {n : String} (t : Typ)
    (h : p.existsB st n = true) : isPanic (p.insertVar st n t) = true := by
  simp [BlockCtx.insertVar, h, isPanic]

lemma insertFunc_panic_of_exists {st : CompSt} {p : BlockCtx} {n : String} (fd : FuncDecl)
    (h : p.existsB st n = true) : isPanic (p.insertFunc st n fd) = true := by
  simp [BlockCtx.insertFunc, h, isPanic]

lemma insertVar_ok_fields {st : CompSt} {p : BlockCtx} {n : String} {t : Typ}
    {p' : BlockCtx} {v : ExecVar} (h : BlockCtx.insertVar st p n t = .ok (p', v)) :
    p.existsB st n = false ∧ v = ⟨t, n, st.nestDepth, p.vlist.length % 2 ^ 32⟩ ∧
      p' = .mk (mapInsert p.syms n (.var v)) (p.vlist ++ [v]) p.file p.parent := by
  by_cases he : p.existsB st n
  · simp [BlockCtx.insertVar, he] at h
  · simp only [BlockCtx.insertVar, he, if_neg, Bool.false_eq_true, if_false,
      Except.ok.injEq, Prod.mk.injEq] at h
    refine ⟨by simpa using he, h.2.symm, ?_⟩
    rw [← h.1, ← h.2]

lemma insertFunc_ok_fields {st : CompSt} {p : BlockCtx} {n : String} {fd : FuncDecl}
    {p' : BlockCtx} (h : BlockCtx.insertFunc st p n fd = .ok p') :
    p.existsB st n = false ∧ p' = p.setSyms (mapInsert p.syms n (.fn fd)) := by
  by_cases he : p.existsB st n
  · simp [BlockCtx.insertFunc, he] at h
  · simp only [BlockCtx.insertFunc, he, if_neg, Bool.false_eq_true, if_false,
      Except.ok.injEq] at h
    exact ⟨by simpa using he, h.symm⟩

/-- C9: a successful declaration (insertVar or insertFunc) makes the name
exist in the scope, after which a second declaration of the same name in
that scope panics; and declaring a name that already exists (in
particular one already bound in the scope's symbol map) always panics. -/
theorem declare_redeclare_fatal (st : CompSt) (p : BlockCtx) (n : String) :
    (∀ t p' v, BlockCtx.insertVar st p n t = .ok (p', v) →
      p'.existsB st n = true ∧ (∀ t2, isPanic (p'.insertVar st n t2) = true) ∧
        (∀ fd2, isPanic (p'.insertFunc st n fd2) = true)) ∧
    (∀ fd p', BlockCtx.insertFunc st p n fd = .ok p' →
      p'.existsB st n = true ∧ (∀ t2, isPanic (p'.insertVar st n t2) = true) ∧
        (∀ fd2, isPanic (p'.insertFunc st n fd2) = true)) ∧
    (p.existsB st n = true →
      (∀ t, isPanic (p.insertVar st n t) = true) ∧
        (∀ fd, isPanic (p.insertFunc st n fd) = true)) ∧
    (∀ s, lookupA p.syms n = some s →
      (∀ t, isPanic (p.insertVar st n t) = true) ∧
        (∀ fd, isPanic (p.insertFunc st n fd) = true)) := by
  refine ⟨?_, ?_, ?_, ?_⟩
  · intro t p' v h
    obtain ⟨-, -, hp'⟩ := insertVar_ok_fields h
    have hex : p'.existsB st n = true := by
      apply existsB_of_lookup_isSome
      rw [hp', mk_syms, lookupA_mapInsert_self]
      rfl
    exact ⟨hex, fun t2 => insertVar_panic_of_exists t2 hex,
      fun fd2 => insertFunc_panic_of_exists fd2 hex⟩
  · intro fd p' h
    obtain ⟨-, hp'⟩ := insertFunc_ok_fields h
    have hex : p'.existsB st n = true := by
      apply existsB_of_lookup_isSome
      rw [hp', setSyms_syms, lookupA_mapInsert_self]
      rfl
    exact ⟨hex, fun t2 => insertVar_panic_of_exists t2 hex,
      fun fd2 => insertFunc_panic_of_exists fd2 hex⟩
  · intro hex
    exact ⟨fun t => insertVar_panic_of_exists t hex,
      fun fd => insertFunc_panic_of_exists fd hex⟩
  · intro s hs
    have hex : p.existsB st n = true := existsB_of_lookup_isSome (by rw [hs]; rfl)
    exact ⟨fun t => insertVar_panic_of_exists t hex,
      fun fd => insertFunc_panic_of_exists fd hex⟩

/-- Fresh global scope for the C9 witness. -/
def c9p : BlockCtx := .mk [] [] none none

/-- Empty compilation state for the C9 witness. -/
def c9st : CompSt := ⟨[], 0⟩

/-- Scope state after successfully declaring "a" for the C9 witness. -/
def c9p' : BlockCtx := .mk [("a", .var ⟨"int", "a", 0, 0⟩)] [⟨"int", "a", 0, 0⟩] none none

/-- Witness for C9: after declaring "a" the name exists and declaring it
again (as a variable or as a function) panics. -/
theorem declare_redeclare_witness :
    BlockCtx.existsB c9st c9p' "a" = true ∧
    isPanic (BlockCtx.insertVar c9st c9p' "a" "string") = true ∧
    isPanic (BlockCtx.insertFunc c9st c9p' "a" ⟨"a", [], 0, false⟩) = true :=
  let t := (declare_redeclare_fatal c9st c9p "a").1 "int" c9p' ⟨"int", "a", 0, 0⟩ rfl
  ⟨t.1, t.2.1 "string", t.2.2 ⟨"a", [], 0, false⟩⟩

lemma insertVars_idx (st : CompSt) :
    ∀ (l : List (String × Typ)) (p p'' : BlockCtx), insertVars st p l = .ok p'' →
      (∀ j v, p.vlist.get? j = some v → v.idx = j % 2 ^ 32 ∧ v.depth = st.nestDepth) →
      (∀ j v, p''.vlist.get? j = some v → v.idx = j % 2 ^ 32 ∧ v.depth = st.nestDepth) := by
  intro l
  induction l with
  | nil =>
    intro p p'' h hj
    simp only [insertVars, Except.ok.injEq] at h
    rw [← h]
    exact hj
  | cons nt rest ih =>
    intro p p'' h hj
    obtain ⟨n, t⟩ := nt
    simp only [insertVars] at h
    cases hv : BlockCtx.insertVar st p n t with
    | error e =>
      rw [hv] at h
      simp only [bind_err] at h
      exact Except.noConfusion h
    | ok pv =>
      obtain ⟨p', v⟩ := pv
      rw [hv] at h
      simp only [bind_ok] at h
      obtain ⟨-, hvv, hp'⟩ := insertVar_ok_fields hv
      refine ih p' p'' h ?_
      intro j w hw
      rw [hp', mk_vlist] at hw
      rcases lt_trichotomy j p.vlist.length with hlt | heq | hgt
      · rw [List.get?_append hlt] at hw
        exact hj j w hw
      · subst heq
        rw [List.get?_concat_length] at hw
        cases hw
        rw [hvv]
        exact ⟨rfl, rfl⟩
      · rw [List.get?_eq_none.mpr (by simp; omega)] at hw
        cases hw

/-- C8 (amended): a successful insertVar assigns slot index
`len(vlist) mod 2 ^ 32` - the source truncates the index to uint32
(`idx := uint32(len(p.vlist))`, src/cl/compile.go:170) - and tags the
variable with the emission backend's current nesting depth; hence in a
sequence of declarations into a fresh scope the j-th declared variable
gets slot `j mod 2 ^ 32`, which for the first `2 ^ 32` declarations are
the strictly increasing consecutive integers 0, 1, 2, ... at that
depth. -/
theorem insertVar_slot_addresses (st : CompSt) :
    (∀ p n t p' v, BlockCtx.insertVar st p n t = .ok (p', v) →
      v.idx = p.vlist.length % 2 ^ 32 ∧ v.depth = st.nestDepth ∧
        p'.vlist = p.vlist ++ [v]) ∧
    (∀ l p p'', p.vlist = [] → insertVars st p l = .ok p'' →
      ∀ j v, p''.vlist.get? j = some v →
        v.idx = j % 2 ^ 32 ∧ (j < 2 ^ 32 → v.idx = j) ∧ v.depth = st.nestDepth) := by
  constructor
  · intro p n t p' v h
    obtain ⟨-, hv, hp'⟩ := insertVar_ok_fields h
    refine ⟨by rw [hv], by rw [hv], by rw [hp', mk_vlist]⟩
  · intro l p p'' hnil h j v hj
    have hbase : ∀ j v, p.vlist.get? j = some v →
        v.idx = j % 2 ^ 32 ∧ v.depth = st.nestDepth := by
      intro j v hjv
      rw [hnil] at hjv
      cases j <;> cases hjv
    obtain ⟨h1, h2⟩ := insertVars_idx st l p p'' h hbase j v hj
    exact ⟨h1, fun hlt => by rw [h1, Nat.mod_eq_of_lt hlt], h2⟩

/-- Fresh scope at backend nesting depth 7 for the C8 witness. -/
def c8st : CompSt := ⟨[], 7⟩

/-- Fresh scope for the C8 witness. -/
def c8p : BlockCtx := .mk [] [] none none

/-- Result of declaring "a" then "b" for the C8 witness. -/
def c8p2 : BlockCtx :=
  .mk [("a", .var ⟨"int", "a", 7, 0⟩), ("b", .var ⟨"bool", "b", 7, 1⟩)]
    [⟨"int", "a", 7, 0⟩, ⟨"bool", "b", 7, 1⟩] none none

/-- Witness for C8: declaring "a" then "b" into a fresh scope at nesting
depth 7 assigns slots 0 and 1 at depth 7. -/
theorem insertVar_slots_witness :
    ((⟨"int", "a", 7, 0⟩ : ExecVar).idx = 0 ∧ (⟨"int", "a", 7, 0⟩ : ExecVar).depth = 7) ∧
    ((⟨"bool", "b", 7, 1⟩ : ExecVar).idx = 1 ∧ (⟨"bool", "b", 7, 1⟩ : ExecVar).depth = 7) :=
  let t := (insertVar_slot_addresses c8st).2 [("a", "int"), ("b", "bool")] c8p c8p2 rfl rfl
  ⟨⟨(t 0 ⟨"int", "a", 7, 0⟩ rfl).2.1 (by decide), (t 0 ⟨"int", "a", 7, 0⟩ rfl).2.2⟩,
   ⟨(t 1 ⟨"bool", "b", 7, 1⟩ rfl).2.1 (by decide), (t 1 ⟨"bool", "b", 7, 1⟩ rfl).2.2⟩⟩

/-- Name consisting of `i` letters "a"; distinct names for distinct `i`,
used to build an arbitrarily long sequence of fresh declarations. -/
def repName (i : Nat) : String := ⟨List.replicate i 'a'⟩

lemma repName_length (i : Nat) : (repName i).length = i := by
  show (List.replicate i 'a').length = i
  simp

lemma mk_file (s : List (String × ISymbol)) (v : List ExecVar) (f : Option Nat)
    (q : Option BlockCtx) : (BlockCtx.mk s v f q).file = f := rfl

lemma mk_parent (s : List (String × ISymbol)) (v : List ExecVar) (f : Option Nat)
    (q : Option BlockCtx) : (BlockCtx.mk s v f q).parent = q := rfl

lemma lookupA_mapInsert_isSome {α : Type} (m : List (String × α)) (key n : String)
    (v : α) (h : (lookupA (mapInsert m key v) n).isSome = true) :
    n = key ∨ (lookupA m n).isSome = true := by
  by_cases hk : n = key
  · exact Or.inl hk
  · rw [lookupA_mapInsert_ne _ _ hk] at h
    exact Or.inr h

lemma existsB_none_none {st : CompSt} {p : BlockCtx} {n : String}
    (hpar : p.parent = none) (hfile : p.file = none)
    (hl : lookupA p.syms n = none) : p.existsB st n = false := by
  simp [BlockCtx.existsB, hl, hpar, hfile]

lemma insertVar_ok_of_not_exists {st : CompSt} {p : BlockCtx} {n : String} (t : Typ)
    (h : p.existsB st n = false) :
    BlockCtx.insertVar st p n t =
      .ok (.mk (mapInsert p.syms n (.var ⟨t, n, st.nestDepth, p.vlist.length % 2 ^ 32⟩))
        (p.vlist ++ [⟨t, n, st.nestDepth, p.vlist.length % 2 ^ 32⟩]) p.file p.parent,
        ⟨t, n, st.nestDepth, p.vlist.length % 2 ^ 32⟩) := by
  simp [BlockCtx.insertVar, h]

/-- Running insertVars on the fresh names `repName (m+1), repName (m+2),
...` from a scope of `m` variables whose bound names are all of length
at most `m`: every declaration succeeds and the j-th slot of the
resulting variable list carries index `j mod 2 ^ 32`.  Proved abstractly
so it applies to runs of length beyond `2 ^ 32`. -/
lemma wrap_insert_run (st : CompSt) :
    ∀ (k m : Nat) (p : BlockCtx), p.file = none → p.parent = none →
      p.vlist.length = m →
      (∀ n, (lookupA p.syms n).isSome = true → n.length ≤ m) →
      ∃ p', insertVars st p
          ((List.range k).map (fun i => (repName (m + i + 1), ("t" : Typ)))) = .ok p' ∧
        p'.vlist.length = m + k ∧
        (∀ j, j < m → p'.vlist.get? j = p.vlist.get? j) ∧
        (∀ j, m ≤ j → j < m + k →
          (p'.vlist.get? j).map ExecVar.idx = some (j % 2 ^ 32)) := by
  intro k
  induction k with
  | zero =>
    intro m p hf hp hv hb
    exact ⟨p, by simp [insertVars], by omega, fun j hj => rfl,
      fun j h1 h2 => absurd h2 (by omega)⟩
  | succ k ih =>
    intro m p hf hp hv hb
    have hlook : lookupA p.syms (repName (m + 1)) = none := by
      rcases hl : lookupA p.syms (repName (m + 1)) with _ | s
      · rfl
      · have hle := hb _ (by rw [hl]; rfl)
        rw [repName_length] at hle
        omega
    have hex : p.existsB st (repName (m + 1)) = false := existsB_none_none hp hf hlook
    have hstep := insertVar_ok_of_not_exists ("t" : Typ) hex
    have hfun : ((fun i => (repName (m + i + 1), ("t" : Typ))) ∘ Nat.succ)
        = (fun i => (repName (m + 1 + i + 1), ("t" : Typ))) := by
      funext i
      simp only [Function.comp, Nat.succ_eq_add_one]
      rw [show m + (i + 1) + 1 = m + 1 + i + 1 from by omega]
    have hdecomp : ((List.range (k + 1)).map (fun i => (repName (m + i + 1), ("t" : Typ))))
        = (repName (m + 1), ("t" : Typ)) ::
          ((List.range k).map (fun i => (repName (m + 1 + i + 1), ("t" : Typ)))) := by
      rw [List.range_succ_eq_map, List.map_cons, List.map_map, hfun]
    rw [hdecomp]
    simp only [insertVars]
    rw [hstep]
    simp only [bind_ok]
    obtain ⟨p', hrun, hlen, hpres, hidx⟩ := ih (m + 1)
      (.mk (mapInsert p.syms (repName (m + 1))
          (.var ⟨"t", repName (m + 1), st.nestDepth, p.vlist.length % 2 ^ 32⟩))
        (p.vlist ++ [⟨"t", repName (m + 1), st.nestDepth, p.vlist.length % 2 ^ 32⟩])
        p.file p.parent)
      (by rw [mk_file]; exact hf) (by rw [mk_parent]; exact hp)
      (by rw [mk_vlist]; simp [hv])
      (by
        intro n hn
        rw [mk_syms] at hn
        rcases lookupA_mapInsert_isSome _ _ _ _ hn with rfl | hold
        · rw [repName_length]
        · exact le_trans (hb n hold) (by omega))
    refine ⟨p', hrun, by rw [hlen]; omega, ?_, ?_⟩
    · intro j hj
      rw [hpres j (by omega), mk_vlist, List.get?_append (by omega)]
    · intro j h1 h2
      rcases eq_or_lt_of_le h1 with heq | hgt
      · rw [hpres j (by omega), mk_vlist]
        rw [show j = p.vlist.length from by omega]
        rw [List.get?_concat_length]
        rfl
      · exact hidx j (by omega) (by omega)

/-- The run refuting C8 as originally stated: `2 ^ 32 + 1` successive
declarations of distinct fresh names into one fresh scope. -/
def c8wrapRun : Except String BlockCtx :=
  insertVars c8st c8p ((List.range (2 ^ 32 + 1)).map (fun i => (repName (i + 1), "t")))

/-- Slot index recorded at position `j` of the variable list produced by
a loading run (`none` when the run panicked or the position is out of
range). -/
def idxAt (r : Except String BlockCtx) (j : Nat) : Option Nat :=
  match r with
  | .error _ => none
  | .ok p => (p.vlist.get? j).map ExecVar.idx

/-- Counterexample to C8 as stated: all `2 ^ 32 + 1` successive
insertVar calls into one fresh scope succeed (no panic), yet the
`2 ^ 32`-th declared variable (0-indexed) receives slot 0, not
`2 ^ 32` - the uint32 conversion at src/cl/compile.go:170 wraps, so the
slot indices are not strictly increasing consecutive integers. -/
theorem insertVar_slots_counterexample :
    isPanic c8wrapRun = false ∧ idxAt c8wrapRun (2 ^ 32) = some 0 ∧
      (2 ^ 32 : Nat) ≠ 0 := by
  obtain ⟨p', hrun, hlen, hpres, hidx⟩ := wrap_insert_run c8st (2 ^ 32 + 1) 0 c8p
    rfl rfl rfl (by intro n hn; simp [c8p, BlockCtx.syms, lookupA] at hn)
  have hfun0 : (fun i => (repName (0 + i + 1), ("t" : Typ)))
      = (fun i => (repName (i + 1), ("t" : Typ))) := by
    funext i
    rw [Nat.zero_add]
  rw [hfun0] at hrun
  have hrun' : c8wrapRun = .ok p' := hrun
  have hmid := hidx (2 ^ 32) (Nat.zero_le _) (by rw [Nat.zero_add]; exact Nat.lt_succ_self _)
  rw [Nat.mod_self] at hmid
  refine ⟨?_, ?_, (pow_pos (by omega : (0 : Nat) < 2) 32).ne'⟩
  · rw [show isPanic c8wrapRun = isPanic (Except.ok p') from by rw [hrun']]
    rfl
  · rw [show idxAt c8wrapRun (2 ^ 32) = idxAt (Except.ok p') (2 ^ 32) from by rw [hrun']]
    exact hmid

lemma findType_of_find_none (st : CompSt) {p : BlockCtx} {tn : String}
    (h : p.find st tn = none) : p.findType st tn = .error .ErrNotFound := by
  simp [BlockCtx.findType, h]

lemma findType_of_find_typ (st : CompSt) {p : BlockCtx} {tn : String} {t : TypeDecl}
    (h : p.find st tn = some (.typ t)) : p.findType st tn = .ok t := by
  simp [BlockCtx.findType, h]

lemma findType_of_find_nontyp (st : CompSt) {p : BlockCtx} {tn : String} {s : ISymbol}
    (h : p.find st tn = some s) (hs : ∀ t, s ≠ .typ t) :
    p.findType st tn = .error .ErrSymbolNotType := by
  cases s with
  | typ t => exact absurd rfl (hs t)
  | var v => simp [BlockCtx.findType, h]
  | pkgPath path => simp [BlockCtx.findType, h]
  | fn f => simp [BlockCtx.findType, h]

lemma find_head_global (st : CompSt) {p : BlockCtx} {n : String} {s : ISymbol}
    (hpar : p.parent = none) (hl : lookupA p.syms n = some s) : p.find st n = some s :=
  find_of_chain_some st (by rw [symsChainFind_parent_none hpar]; exact hl)

lemma insertMethod_panic_dup {st : CompSt} {p : BlockCtx} {tn mn : String}
    (m₂ : MethodDecl) (hpar : p.parent = none) {t : TypeDecl}
    (hl : lookupA p.syms tn = some (.typ t)) (halias : t.Alias = false)
    (hdup : (lookupA t.Methods mn).isSome = true) :
    isPanic (BlockCtx.insertMethod st p tn mn m₂) = true := by
  have hft := findType_of_find_typ st (find_head_global st hpar hl)
  simp [BlockCtx.insertMethod, hpar, hft, halias, hdup, isPanic]

/-- C7: declare_method (insertMethod) at the global scope creates a
zero-value placeholder type when the name is entirely unbound; panics
when the name resolves to a non-type symbol, to an alias type, or to a
type already carrying the method name; otherwise inserts the method -
and after any successful insertion the same (type, method) pair can
never be registered a second time. -/
theorem insertMethod_spec (st : CompSt) (p : BlockCtx) (tn mn : String) (m : MethodDecl)
    (hpar : p.parent = none) :
    (p.find st tn = none →
      BlockCtx.insertMethod st p tn mn m =
        .ok (p.setSyms (mapInsert p.syms tn (.typ ⟨false, [(mn, m)]⟩)))) ∧
    (∀ s, p.find st tn = some s → (∀ t, s ≠ .typ t) →
      isPanic (BlockCtx.insertMethod st p tn mn m) = true) ∧
    (∀ t, p.find st tn = some (.typ t) → t.Alias = true →
      isPanic (BlockCtx.insertMethod st p tn mn m) = true) ∧
    (∀ t, p.find st tn = some (.typ t) → t.Alias = false →
      (lookupA t.Methods mn).isSome = true →
      isPanic (BlockCtx.insertMethod st p tn mn m) = true) ∧
    (∀ t, p.find st tn = some (.typ t) → t.Alias = false →
      lookupA t.Methods mn = none →
      BlockCtx.insertMethod st p tn mn m =
        .ok (p.setSyms (mapInsert p.syms tn
          (.typ ⟨t.Alias, mapInsert t.Methods mn m⟩)))) ∧
    (∀ p', BlockCtx.insertMethod st p tn mn m = .ok p' →
      (∃ t', lookupA p'.syms tn = some (.typ t') ∧ t'.Alias = false ∧
        lookupA t'.Methods mn = some m) ∧
      ∀ m₂, isPanic (BlockCtx.insertMethod st p' tn mn m₂) = true) := by
  refine ⟨?_, ?_, ?_, ?_, ?_, ?_⟩
  · intro hfind
    have hft := findType_of_find_none st hfind
    simp [BlockCtx.insertMethod, hpar, hft]
  · intro s hfind hs
    have hft := findType_of_find_nontyp st hfind hs
    simp [BlockCtx.insertMethod, hpar, hft, isPanic]
  · intro t hfind halias
    have hft := findType_of_find_typ st hfind
    simp [BlockCtx.insertMethod, hpar, hft, halias, isPanic]
  · intro t hfind halias hdup
    have hft := findType_of_find_typ st hfind
    simp [BlockCtx.insertMethod, hpar, hft, halias, hdup, isPanic]
  · intro t hfind halias hnodup
    have hft := findType_of_find_typ st hfind
    simp [BlockCtx.insertMethod, hpar, hft, halias, hnodup]
  · intro p' h
    rcases hfind : p.find st tn with _ | s
    · have hft := findType_of_find_none st hfind
      rw [BlockCtx.insertMethod] at h
      simp only [hpar, Option.isSome_none, Bool.false_eq_true, if_false, hft,
        Except.ok.injEq] at h
      subst h
      have hsyms : lookupA (p.setSyms (mapInsert p.syms tn
          (.typ ⟨false, [(mn, m)]⟩))).syms tn = some (.typ ⟨false, [(mn, m)]⟩) := by
        rw [setSyms_syms, lookupA_mapInsert_self]
      have hmeth : lookupA ([(mn, m)] : List (String × MethodDecl)) mn = some m := by
        simp [lookupA]
      refine ⟨⟨⟨false, [(mn, m)]⟩, hsyms, rfl, hmeth⟩, fun m₂ => ?_⟩
      exact insertMethod_panic_dup m₂ (by rw [setSyms_parent]; exact hpar) hsyms rfl
        (by rw [hmeth]; rfl)
    · cases s with
      | var v =>
        have hft := findType_of_find_nontyp st hfind (fun t h => ISymbol.noConfusion h)
        rw [BlockCtx.insertMethod] at h
        simp [hpar, hft] at h
      | pkgPath path =>
        have hft := findType_of_find_nontyp st hfind (fun t h => ISymbol.noConfusion h)
        rw [BlockCtx.insertMethod] at h
        simp [hpar, hft] at h
      | fn f =>
        have hft := findType_of_find_nontyp st hfind (fun t h => ISymbol.noConfusion h)
        rw [BlockCtx.insertMethod] at h
        simp [hpar, hft] at h
      | typ t =>
        have hft := findType_of_find_typ st hfind
        rw [BlockCtx.insertMethod] at h
        cases halias : t.Alias with
        | true => simp [hpar, hft, halias] at h
        | false =>
          cases hdup : (lookupA t.Methods mn).isSome with
          | true => simp [hpar, hft, halias, hdup] at h
          | false =>
            simp only [hpar, Option.isSome_none, Bool.false_eq_true, if_false, hft,
              halias, hdup, Except.ok.injEq] at h
            subst h
            have hsyms : lookupA (p.setSyms (mapInsert p.syms tn
                (.typ ⟨false, mapInsert t.Methods mn m⟩))).syms tn
                = some (.typ ⟨false, mapInsert t.Methods mn m⟩) := by
              rw [setSyms_syms, lookupA_mapInsert_self]
            have hmeth : lookupA (mapInsert t.Methods mn m) mn = some m :=
              lookupA_mapInsert_self t.Methods mn m
            refine ⟨⟨⟨false, mapInsert t.Methods mn m⟩, hsyms, rfl, hmeth⟩, fun m₂ => ?_⟩
            exact insertMethod_panic_dup m₂ (by rw [setSyms_parent]; exact hpar) hsyms rfl
              (by rw [hmeth]; rfl)

/-- Empty compilation state for the C7 witness. -/
def c7st : CompSt := ⟨[], 0⟩

/-- Fresh global scope for the C7 witness. -/
def c7p : BlockCtx := .mk [] [] none none

/-- Method registered first for the C7 witness. -/
def c7m : MethodDecl := ⟨"r", false, [], 0⟩

/-- Second method value for the duplicate registration of the C7 witness. -/
def c7m2 : MethodDecl := ⟨"s", true, [], 0⟩

/-- Global scope holding the placeholder type "T" with method "m". -/
def c7p' : BlockCtx := .mk [("T", .typ ⟨false, [("m", c7m)]⟩)] [] none none

/-- Witness for C7: registering method "m" on the undeclared type "T"
creates a placeholder and succeeds; registering "m" on "T" again
panics. -/
theorem insertMethod_witness :
    BlockCtx.insertMethod c7st c7p "T" "m" c7m = .ok c7p' ∧
    isPanic (BlockCtx.insertMethod c7st c7p' "T" "m" c7m2) = true :=
  let t := insertMethod_spec c7st c7p "T" "m" c7m rfl
  have hok : BlockCtx.insertMethod c7st c7p "T" "m" c7m = .ok c7p' := t.1 rfl
  ⟨hok, (t.2.2.2.2.2 c7p' hok).2 c7m2⟩

lemma findFunc_of_find_none (st : CompSt) {p : BlockCtx} {n : String}
    (h : p.find st n = none) : p.findFunc st n = .error .ErrNotFound := by
  simp [BlockCtx.findFunc, h]

lemma findFunc_of_find_nonfn (st : CompSt) {p : BlockCtx} {n : String} {s : ISymbol}
    (h : p.find st n = some s) (hs : ∀ fd, s ≠ .fn fd) :
    p.findFunc st n = .error .ErrSymbolNotFunc := by
  cases s with
  | fn f => exact absurd rfl (hs f)
  | var v => simp [BlockCtx.findFunc, h]
  | pkgPath path => simp [BlockCtx.findFunc, h]
  | typ t => simp [BlockCtx.findFunc, h]

/-- C5: executable packages ("main"): when nothing named "main" resolves
at package scope after loading, NewPackage returns the entry-point error
ErrMainFuncNotFound; when "main" resolves to a non-function symbol, it
returns the kind-mismatch error ErrSymbolNotFunc.  (The hypothesis that
at least one file exists restricts the statement to the states reachable
in Go, where the current-file pointer consulted by the fallback is
non-nil after loading.) -/
theorem newPackage_main_errors (lower : CompSt → BlockCtx → FBody → CompSt × BlockCtx)
    (nd : Nat) (files : List File) (st : CompSt) (ctx : BlockCtx) (hne : files ≠ [])
    (hload : loadFiles ⟨[], nd⟩ (.mk [] [] none none) files = .ok (st, ctx)) :
    (BlockCtx.find st ctx "main" = none →
      NewPackage lower nd "main" files = .ok (⟨[], []⟩, some .ErrMainFuncNotFound)) ∧
    (∀ s, BlockCtx.find st ctx "main" = some s → (∀ fd, s ≠ .fn fd) →
      NewPackage lower nd "main" files = .ok (⟨[], []⟩, some .ErrSymbolNotFunc)) := by
  constructor
  · intro hfind
    have hff := findFunc_of_find_none st hfind
    simp [NewPackage, hload, bind_ok, hff]
  · intro s hfind hs
    have hff := findFunc_of_find_nonfn st hfind hs
    simp [NewPackage, hload, bind_ok, hff]

/-- Identity lowering used to instantiate the abstract body-lowering
parameter in witnesses. -/
def idLower : CompSt → BlockCtx → FBody → CompSt × BlockCtx := fun st ctx _ => (st, ctx)

/-- Single file declaring only a variable-free "main"-less body, for the
C5 witness. -/
def c5files : List File := [⟨[.funcD "f" none []]⟩]

/-- Witness for C5: a "main" package whose only file declares just the
function "f" fails with ErrMainFuncNotFound. -/
theorem newPackage_main_errors_witness :
    NewPackage idLower 0 "main" c5files = .ok (⟨[], []⟩, some .ErrMainFuncNotFound) :=
  (newPackage_main_errors idLower 0 c5files ⟨[⟨[]⟩], 0⟩
    (.mk [("f", .fn ⟨"f", [], 0, false⟩)] [] (some 0) none)
    (by simp [c5files]) rfl).1 rfl

/-- C6: whenever NewPackage returns a recoverable error next to its
result, the returned Package is the empty one (no variables, no symbol
table) - construction of the artifact was aborted and no partially
usable value escapes; a fatal panic (the Except.error case) returns no
Package at all, by the shape of the result type. -/
theorem newPackage_error_no_partial_package
    (lower : CompSt → BlockCtx → FBody → CompSt × BlockCtx)
    (nd : Nat) (pkgName : String) (files : List File) (p : Package) (e : GoErr)
    (h : NewPackage lower nd pkgName files = .ok (p, some e)) :
    p.vlist = [] ∧ p.syms = [] := by
  rw [NewPackage] at h
  cases hl : loadFiles ⟨[], nd⟩ (.mk [] [] none none) files with
  | error msg =>
    rw [hl] at h
    simp only [bind_err] at h
    exact Except.noConfusion h
  | ok stx =>
    obtain ⟨st, ctx⟩ := stx
    rw [hl] at h
    simp only [bind_ok] at h
    by_cases hm : pkgName = "main"
    · rw [if_pos hm] at h
      cases hff : BlockCtx.findFunc st ctx "main" with
      | error e0 =>
        rw [hff] at h
        simp only [Except.ok.injEq, Prod.mk.injEq] at h
        rw [← h.1]
        exact ⟨rfl, rfl⟩
      | ok entry =>
        rw [hff] at h
        simp at h
    · rw [if_neg hm] at h
      simp at h

/-- Witness for C6: the failing "main" package of one empty file returns
the empty Package next to its error. -/
theorem newPackage_error_witness :
    (⟨[], []⟩ : Package).vlist = [] ∧ (⟨[], []⟩ : Package).syms = [] :=
  newPackage_error_no_partial_package idLower 0 "main" [⟨[]⟩] ⟨[], []⟩
    .ErrMainFuncNotFound rfl

/-- C10: a name bound only in the starting scope's file import table (and
in no scope's symbol map) is found by blockCtx.find as the import's
package-path string with ok = true, so all three typed lookups report
their kind-mismatch errors rather than ErrNotFound; in particular a
"main" package whose name "main" is bound only as an import in the
current file fails with ErrSymbolNotFunc, not ErrMainFuncNotFound. -/
theorem import_fallback_kind_mismatch (st : CompSt) (p : BlockCtx) (n : String)
    (i : Nat) (path : String) (hch : symsChainFind p n = none) (hf : p.file = some i)
    (him : lookupA (importsOf st i) n = some path) :
    p.find st n = some (.pkgPath path) ∧
    p.findFunc st n = .error .ErrSymbolNotFunc ∧
    p.findVar st n = .error .ErrSymbolNotVariable ∧
    p.findType st n = .error .ErrSymbolNotType ∧
    (∀ lower nd files stL ctxL iL pathL,
      loadFiles ⟨[], nd⟩ (.mk [] [] none none) files = .ok (stL, ctxL) →
      symsChainFind ctxL "main" = none → BlockCtx.file ctxL = some iL →
      lookupA (importsOf stL iL) "main" = some pathL →
      NewPackage lower nd "main" files = .ok (⟨[], []⟩, some .ErrSymbolNotFunc)) := by
  have hfind : p.find st n = some (.pkgPath path) := by
    rw [find_of_chain_none st hch hf, him]
    rfl
  refine ⟨hfind, by simp [BlockCtx.findFunc, hfind], by simp [BlockCtx.findVar, hfind],
    by simp [BlockCtx.findType, hfind], ?_⟩
  intro lower nd files stL ctxL iL pathL hload hchL hfL himL
  have hfindL : ctxL.find stL "main" = some (.pkgPath pathL) := by
    rw [find_of_chain_none stL hchL hfL, himL]
    rfl
  have hff := findFunc_of_find_nonfn stL hfindL (fun fd h => ISymbol.noConfusion h)
  simp [NewPackage, hload, bind_ok, hff]

/-- Scope whose file (index 0) imports "z", for the C10 witness. -/
def c10p : BlockCtx := .mk [] [] (some 0) none

/-- Compilation state for the C10 witness: one file importing "z". -/
def c10st : CompSt := ⟨[⟨[("z", "a/z")]⟩], 0⟩

/-- File importing path "x/main" (binding the name "main") for C10. -/
def c10files : List File := [⟨[.importD [⟨none, "x/main"⟩]]⟩]

/-- Witness for C10: an import-only binding gives the pkgPath result and
the three kind-mismatch errors, and a "main" package whose "main" is
only an import fails with ErrSymbolNotFunc. -/
theorem import_fallback_witness :
    BlockCtx.find c10st c10p "z" = some (.pkgPath "a/z") ∧
    BlockCtx.findFunc c10st c10p "z" = .error .ErrSymbolNotFunc ∧
    BlockCtx.findVar c10st c10p "z" = .error .ErrSymbolNotVariable ∧
    BlockCtx.findType c10st c10p "z" = .error .ErrSymbolNotType ∧
    NewPackage idLower 0 "main" c10files = .ok (⟨[], []⟩, some .ErrSymbolNotFunc) :=
  let t := import_fallback_kind_mismatch c10st c10p "z" 0 "a/z" rfl rfl rfl
  ⟨t.1, t.2.1, t.2.2.1, t.2.2.2.1,
    t.2.2.2.2 idLower 0 c10files ⟨[⟨[("main", "x/main")]⟩], 0⟩
      (.mk [] [] (some 0) none) 0 "x/main" rfl rfl rfl rfl⟩

lemma getD_fileCtx_set_ne (l : List FileCtx) {i j : Nat} (a d : FileCtx) (h : i ≠ j) :
    (l.set i a).getD j d = l.getD j d := by
  simp [List.getD_eq_getElem?_getD, List.getElem?_set_ne h]

lemma getD_fileCtx_append_ne (l : List FileCtx) (e d : FileCtx) {j : Nat}
    (h : j ≠ l.length) : (l ++ [e]).getD j d = l.getD j d := by
  rcases lt_or_gt_of_ne h with hlt | hgt
  · simp [List.getD_eq_getElem?_getD, List.getElem?_append_left hlt]
  · rw [List.getD_eq_getElem?_getD, List.getD_eq_getElem?_getD]
    rw [List.getElem?_eq_none (by simp; omega), List.getElem?_eq_none (by omega)]

lemma importsOf_setImports_ne (st : CompSt) {i j : Nat} (imps : List (String × String))
    (h : j ≠ i) : importsOf (setImports st i imps) j = importsOf st j := by
  unfold importsOf setImports
  rw [getD_fileCtx_set_ne st.files _ _ (Ne.symm h)]

lemma loadImport_facts {st : CompSt} {idx : Nat} {spec : ImportSpec} {st' : CompSt}
    (h : loadImport st idx spec = .ok st') :
    st'.nestDepth = st.nestDepth ∧ st'.files.length = st.files.length ∧
      ∀ j, j ≠ idx → importsOf st' j = importsOf st j := by
  obtain ⟨nm, pth⟩ := spec
  cases nm with
  | none =>
    simp only [loadImport, pure, Except.pure, bind_ok, Except.ok.injEq] at h
    subst h
    exact ⟨rfl, by simp [setImports], fun j hj => importsOf_setImports_ne st _ hj⟩
  | some nme =>
    by_cases hb : nme = "_" ∨ nme = "."
    · simp [loadImport, hb] at h
    · simp only [loadImport, hb, if_neg, if_false, pure, Except.pure, bind_ok,
        Except.ok.injEq] at h
      subst h
      exact ⟨rfl, by simp [setImports], fun j hj => importsOf_setImports_ne st _ hj⟩

lemma loadImports_facts {idx : Nat} :
    ∀ (specs : List ImportSpec) (st st' : CompSt), loadImports st idx specs = .ok st' →
      st'.nestDepth = st.nestDepth ∧ st'.files.length = st.files.length ∧
        ∀ j, j ≠ idx → importsOf st' j = importsOf st j := by
  intro specs
  induction specs with
  | nil =>
    intro st st' h
    simp only [loadImports, Except.ok.injEq] at h
    subst h
    exact ⟨rfl, rfl, fun j _ => rfl⟩
  | cons spec rest ih =>
    intro st st' h
    simp only [loadImports] at h
    cases hs : loadImport st idx spec with
    | error e =>
      rw [hs] at h
      simp only [bind_err] at h
      exact Except.noConfusion h
    | ok st1 =>
      rw [hs] at h
      simp only [bind_ok] at h
      obtain ⟨h1, h2, h3⟩ := loadImport_facts hs
      obtain ⟨h4, h5, h6⟩ := ih st1 st' h
      exact ⟨h4.trans h1, h5.trans h2, fun j hj => (h6 j hj).trans (h3 j hj)⟩

lemma findType_notFound_elim {st : CompSt} {p : BlockCtx} {tn : String}
    (h : p.findType st tn = .error .ErrNotFound) : p.find st tn = none := by
  rcases hf : p.find st tn with _ | s
  · rfl
  · cases s <;> simp [BlockCtx.findType, hf] at h

lemma findType_ok_elim {st : CompSt} {p : BlockCtx} {tn : String} {t : TypeDecl}
    (h : p.findType st tn = .ok t) : p.find st tn = some (.typ t) := by
  rcases hf : p.find st tn with _ | s
  · simp [BlockCtx.findType, hf] at h
  · cases s with
    | typ t' =>
      simp only [BlockCtx.findType, hf, Except.ok.injEq] at h
      rw [h]
    | var v => simp [BlockCtx.findType, hf] at h
    | pkgPath path => simp [BlockCtx.findType, hf] at h
    | fn f => simp [BlockCtx.findType, hf] at h

lemma find_none_head {st : CompSt} {p : BlockCtx} {n : String} (hpar : p.parent = none)
    (h : p.find st n = none) : lookupA p.syms n = none := by
  rcases hl : lookupA p.syms n with _ | s
  · rfl
  · rw [find_head_global st hpar hl] at h
    exact Option.noConfusion h

lemma find_typ_head {st : CompSt} {p : BlockCtx} {n : String} {t : TypeDecl}
    (hpar : p.parent = none) (h : p.find st n = some (.typ t)) :
    lookupA p.syms n = some (.typ t) := by
  rcases hc : symsChainFind p n with _ | s
  · rcases hfo : p.file with _ | i <;> simp [BlockCtx.find, hc, hfo] at h
  · have hfs := find_of_chain_some st hc
    rw [hfs] at h
    obtain rfl : s = .typ t := Option.some.injEq _ _ ▸ h
    rw [← hc, symsChainFind_parent_none hpar]

/-- Effect of a successful insertMethod on the symbol map: everything
already bound stays bound, and funcDecl bindings are untouched. -/
lemma insertMethod_ok_pres {st : CompSt} {ctx : BlockCtx} {tn mn : String}
    {m : MethodDecl} {c : BlockCtx} (h : BlockCtx.insertMethod st ctx tn mn m = .ok c) :
    c.file = ctx.file ∧ c.parent = ctx.parent ∧ c.vlist = ctx.vlist ∧
      (∀ n, (lookupA ctx.syms n).isSome = true → (lookupA c.syms n).isSome = true) ∧
      (∀ n fd, lookupA ctx.syms n = some (.fn fd) → lookupA c.syms n = some (.fn fd)) := by
  by_cases hp : ctx.parent.isSome
  · simp [BlockCtx.insertMethod, hp] at h
  · have hpar : ctx.parent = none := Option.not_isSome_iff_eq_none.mp hp
    have hpf : ctx.parent.isSome = false := by simp [hpar]
    rcases hft : ctx.findType st tn with e | t
    · cases e with
      | ErrNotFound =>
        simp only [BlockCtx.insertMethod, hpf, Bool.false_eq_true, if_false, hft,
          Except.ok.injEq] at h
        subst h
        have hnone := find_none_head hpar (findType_notFound_elim hft)
        refine ⟨setSyms_file _ _, setSyms_parent _ _, setSyms_vlist _ _, ?_, ?_⟩
        · intro n hn
          rw [setSyms_syms]
          by_cases hT : n = tn
          · rw [hT, lookupA_mapInsert_self]; rfl
          · rw [lookupA_mapInsert_ne _ _ hT]; exact hn
        · intro n fd hn
          rw [setSyms_syms]
          by_cases hT : n = tn
          · rw [hT] at hn; rw [hn] at hnone; exact Option.noConfusion hnone
          · rw [lookupA_mapInsert_ne _ _ hT]; exact hn
      | ErrMainFuncNotFound => simp [BlockCtx.insertMethod, hpf, hft] at h
      | ErrSymbolNotVariable => simp [BlockCtx.insertMethod, hpf, hft] at h
      | ErrSymbolNotFunc => simp [BlockCtx.insertMethod, hpf, hft] at h
      | ErrSymbolNotType => simp [BlockCtx.insertMethod, hpf, hft] at h
    · cases halias : t.Alias with
      | true => simp [BlockCtx.insertMethod, hpf, hft, halias] at h
      | false =>
        cases hdup : (lookupA t.Methods mn).isSome with
        | true => simp [BlockCtx.insertMethod, hpf, hft, halias, hdup] at h
        | false =>
          simp only [BlockCtx.insertMethod, hpf, Bool.false_eq_true, if_false, hft,
            halias, hdup, Except.ok.injEq] at h
          subst h
          have htyp := find_typ_head hpar (findType_ok_elim hft)
          refine ⟨setSyms_file _ _, setSyms_parent _ _, setSyms_vlist _ _, ?_, ?_⟩
          · intro n hn
            rw [setSyms_syms]
            by_cases hT : n = tn
            · rw [hT, lookupA_mapInsert_self]; rfl
            · rw [lookupA_mapInsert_ne _ _ hT]; exact hn
          · intro n fd hn
            rw [setSyms_syms]
            by_cases hT : n = tn
            · rw [hT] at hn; rw [hn] at htyp
              exact absurd (Option.some.injEq _ _ ▸ htyp) (by intro hc; cases hc)
            · rw [lookupA_mapInsert_ne _ _ hT]; exact hn

/-- Effect of a successful insertFunc on the symbol map. -/
lemma insertFunc_ok_pres {st : CompSt} {ctx : BlockCtx} {n0 : String} {fd0 : FuncDecl}
    {c : BlockCtx} (h : BlockCtx.insertFunc st ctx n0 fd0 = .ok c) :
    c.file = ctx.file ∧ c.parent = ctx.parent ∧ c.vlist = ctx.vlist ∧
      (∀ n, (lookupA ctx.syms n).isSome = true → (lookupA c.syms n).isSome = true) ∧
      (∀ n fd, lookupA ctx.syms n = some (.fn fd) → lookupA c.syms n = some (.fn fd)) := by
  obtain ⟨hex, hc⟩ := insertFunc_ok_fields h
  have hnone : lookupA ctx.syms n0 = none := by
    rcases hl : lookupA ctx.syms n0 with _ | s
    · rfl
    · have hx : ctx.existsB st n0 = true := existsB_of_lookup_isSome (by rw [hl]; rfl)
      rw [hx] at hex
      exact Bool.noConfusion hex
  subst hc
  refine ⟨setSyms_file _ _, setSyms_parent _ _, setSyms_vlist _ _, ?_, ?_⟩
  · intro n hn
    rw [setSyms_syms]
    by_cases hT : n = n0
    · rw [hT, lookupA_mapInsert_self]; rfl
    · rw [lookupA_mapInsert_ne _ _ hT]; exact hn
  · intro n fd hn
    rw [setSyms_syms]
    by_cases hT : n = n0
    · rw [hT] at hn; rw [hn] at hnone; exact Option.noConfusion hnone
    · rw [lookupA_mapInsert_ne _ _ hT]; exact hn

/-- What one declaration-loading step preserves about the shared state:
the scope identity fields, the backend depth, the file-heap length, the
tables of imports of all other files, and the bindings already made. -/
def Pres (idx : Nat) (st : CompSt) (ctx : BlockCtx) (st' : CompSt) (ctx' : BlockCtx) : Prop :=
  ctx'.file = ctx.file ∧ ctx'.parent = ctx.parent ∧ ctx'.vlist = ctx.vlist ∧
    st'.nestDepth = st.nestDepth ∧ st'.files.length = st.files.length ∧
    (∀ j, j ≠ idx → importsOf st' j = importsOf st j) ∧
    (∀ n, (lookupA ctx.syms n).isSome = true → (lookupA ctx'.syms n).isSome = true) ∧
    (∀ n fd, lookupA ctx.syms n = some (.fn fd) → lookupA ctx'.syms n = some (.fn fd))

lemma pres_refl (idx : Nat) (st : CompSt) (ctx : BlockCtx) : Pres idx st ctx st ctx :=
  ⟨rfl, rfl, rfl, rfl, rfl, fun _ _ => rfl, fun _ h => h, fun _ _ h => h⟩

lemma pres_trans {idx : Nat} {st1 st2 st3 : CompSt} {c1 c2 c3 : BlockCtx}
    (h12 : Pres idx st1 c1 st2 c2) (h23 : Pres idx st2 c2 st3 c3) :
    Pres idx st1 c1 st3 c3 := by
  obtain ⟨a1, a2, a3, a4, a5, a6, a7, a8⟩ := h12
  obtain ⟨b1, b2, b3, b4, b5, b6, b7, b8⟩ := h23
  exact ⟨b1.trans a1, b2.trans a2, b3.trans a3, b4.trans a4, b5.trans a5,
    fun j hj => (b6 j hj).trans (a6 j hj), fun n hn => b7 n (a7 n hn),
    fun n fd hn => b8 n fd (a8 n fd hn)⟩

lemma loadDecl_pres {st : CompSt} {ctx : BlockCtx} {idx : Nat} {d : Decl}
    {st' : CompSt} {ctx' : BlockCtx} (h : loadDecl st ctx idx d = .ok (st', ctx')) :
    Pres idx st ctx st' ctx' := by
  cases d with
  | funcD name recv body =>
    simp only [loadDecl] at h
    cases hlf : loadFunc st ctx idx name recv body with
    | error e =>
      rw [hlf] at h
      simp only [bind_err] at h
      exact Except.noConfusion h
    | ok c =>
      rw [hlf] at h
      simp only [bind_ok, Except.ok.injEq, Prod.mk.injEq] at h
      obtain ⟨h1, h2⟩ := h
      subst h1
      subst h2
      cases recv with
      | some r =>
        simp only [loadFunc] at hlf
        obtain ⟨p1, p2, p3, p4, p5⟩ := insertMethod_ok_pres hlf
        exact ⟨p1, p2, p3, rfl, rfl, fun _ _ => rfl, p4, p5⟩
      | none =>
        simp only [loadFunc] at hlf
        by_cases hini : name = "init"
        · simp [hini] at hlf
        · rw [if_neg hini] at hlf
          obtain ⟨p1, p2, p3, p4, p5⟩ := insertFunc_ok_pres hlf
          exact ⟨p1, p2, p3, rfl, rfl, fun _ _ => rfl, p4, p5⟩
  | importD specs =>
    simp only [loadDecl] at h
    cases hli : loadImports st idx specs with
    | error e =>
      rw [hli] at h
      simp only [bind_err] at h
      exact Except.noConfusion h
    | ok s1 =>
      rw [hli] at h
      simp only [bind_ok, Except.ok.injEq, Prod.mk.injEq] at h
      obtain ⟨h1, h2⟩ := h
      subst h1
      subst h2
      obtain ⟨q1, q2, q3⟩ := loadImports_facts specs st s1 hli
      exact ⟨rfl, rfl, rfl, q1, q2, q3, fun _ hn => hn, fun _ _ hn => hn⟩
  | typeD =>
    simp only [loadDecl, Except.ok.injEq, Prod.mk.injEq] at h
    obtain ⟨h1, h2⟩ := h
    subst h1
    subst h2
    exact pres_refl idx st ctx
  | constD =>
    simp only [loadDecl, Except.ok.injEq, Prod.mk.injEq] at h
    obtain ⟨h1, h2⟩ := h
    subst h1
    subst h2
    exact pres_refl idx st ctx
  | varD =>
    simp only [loadDecl, Except.ok.injEq, Prod.mk.injEq] at h
    obtain ⟨h1, h2⟩ := h
    subst h1
    subst h2
    exact pres_refl idx st ctx
  | unknownD => simp [loadDecl] at h

lemma loadDecls_pres {idx : Nat} :
    ∀ (ds : List Decl) (st : CompSt) (ctx : BlockCtx) (st' : CompSt) (ctx' : BlockCtx),
      loadDecls st ctx idx ds = .ok (st', ctx') → Pres idx st ctx st' ctx' := by
  intro ds
  induction ds with
  | nil =>
    intro st ctx st' ctx' h
    simp only [loadDecls, Except.ok.injEq, Prod.mk.injEq] at h
    obtain ⟨h1, h2⟩ := h
    subst h1
    subst h2
    exact pres_refl idx st ctx
  | cons d ds ih =>
    intro st ctx st' ctx' h
    simp only [loadDecls] at h
    cases hd : loadDecl st ctx idx d with
    | error e =>
      rw [hd] at h
      simp only [bind_err] at h
      exact Except.noConfusion h
    | ok sc =>
      obtain ⟨st1, ctx1⟩ := sc
      rw [hd] at h
      simp only [bind_ok] at h
      exact pres_trans (loadDecl_pres hd) (ih st1 ctx1 st' ctx' h)

/-- What a successful loadFile guarantees: the returned global scope
points at the freshly allocated fileCtx, scope identity and previously
made symbol bindings survive, the heap grows by one file, and the import
tables of all previously existing files are untouched. -/
lemma loadFile_facts {st : CompSt} {g : BlockCtx} {f : File} {st' : CompSt} {g' : BlockCtx}
    (h : loadFile st g f = .ok (st', g')) :
    g'.file = some st.files.length ∧ g'.parent = g.parent ∧ g'.vlist = g.vlist ∧
      st'.nestDepth = st.nestDepth ∧ st'.files.length = st.files.length + 1 ∧
      (∀ j, j ≠ st.files.length → importsOf st' j = importsOf st j) ∧
      (∀ n, (lookupA g.syms n).isSome = true → (lookupA g'.syms n).isSome = true) ∧
      (∀ n fd, lookupA g.syms n = some (.fn fd) → lookupA g'.syms n = some (.fn fd)) := by
  obtain ⟨p1, p2, p3, p4, p5, p6, p7, p8⟩ := loadDecls_pres f.decls _ _ _ _ h
  have himp : ∀ j, j ≠ st.files.length → importsOf st' j = importsOf st j := by
    intro j hj
    rw [p6 j hj]
    unfold importsOf
    rw [show (⟨st.files ++ [⟨[]⟩], st.nestDepth⟩ : CompSt).files = st.files ++ [⟨[]⟩] from rfl]
    rw [getD_fileCtx_append_ne st.files _ _ hj]
  refine ⟨by rw [p1, setFile_file], by rw [p2, setFile_parent], by rw [p3, setFile_vlist],
    p4, by rw [p5]; simp, himp, ?_, ?_⟩
  · intro n hn
    apply p7
    rw [setFile_syms]
    exact hn
  · intro n fd hn
    apply p8
    rw [setFile_syms]
    exact hn

/-- C4: after loading file A and then file B into the same package-global
scope, an import binding made while loading A is not visible to
resolution rooted in B's context (B's context consults only the scope
chain and B's own import table, and an unbound name falls back to B's
table alone), even though A's import table itself is untouched by
loading B; whereas a function declared at package scope while loading A
is still bound in the shared scope after loading B and resolves from B's
context. -/
theorem loadFile_import_isolation_decl_sharing (stA : CompSt) (g : BlockCtx) (A B : File)
    (st1 st2 : CompSt) (g1 g2 : BlockCtx)
    (hA : loadFile stA g A = .ok (st1, g1)) (hB : loadFile st1 g1 B = .ok (st2, g2)) :
    (∀ n path, lookupA (importsOf st1 stA.files.length) n = some path →
      symsChainFind g1 n = none → BlockCtx.find st1 g1 n = some (.pkgPath path)) ∧
    importsOf st2 stA.files.length = importsOf st1 stA.files.length ∧
    (∀ n, symsChainFind g2 n = none →
      lookupA (importsOf st2 st1.files.length) n = none → BlockCtx.find st2 g2 n = none) ∧
    (∀ n fd, lookupA g1.syms n = some (.fn fd) →
      lookupA g2.syms n = some (.fn fd) ∧ BlockCtx.find st2 g2 n = some (.fn fd)) := by
  obtain ⟨a1, a2, a3, a4, a5, a6, a7, a8⟩ := loadFile_facts hA
  obtain ⟨b1, b2, b3, b4, b5, b6, b7, b8⟩ := loadFile_facts hB
  have hAB : stA.files.length ≠ st1.files.length := by omega
  refine ⟨?_, ?_, ?_, ?_⟩
  · intro n path him hch
    rw [find_of_chain_none st1 hch a1, him]
    rfl
  · exact b6 stA.files.length hAB
  · intro n hch him
    rw [find_of_chain_none st2 hch b1, him]
    rfl
  · intro n fd hn
    have hn2 := b8 n fd hn
    exact ⟨hn2, find_of_chain_some st2 (symsChainFind_head_some hn2)⟩

/-- File A of the C4 witness: imports "pa" (path "x/pa") and declares
function "f". -/
def c4A : File := ⟨[.importD [⟨none, "x/pa"⟩], .funcD "f" none []]⟩

/-- File B of the C4 witness: empty. -/
def c4B : File := ⟨[]⟩

/-- State after loading file A for the C4 witness. -/
def c4st1 : CompSt := ⟨[⟨[("pa", "x/pa")]⟩], 0⟩

/-- Global scope after loading file A for the C4 witness. -/
def c4g1 : BlockCtx := .mk [("f", .fn ⟨"f", [], 0, false⟩)] [] (some 0) none

/-- State after loading files A and B for the C4 witness. -/
def c4st2 : CompSt := ⟨[⟨[("pa", "x/pa")]⟩, ⟨[]⟩], 0⟩

/-- Global scope after loading files A and B for the C4 witness. -/
def c4g2 : BlockCtx := .mk [("f", .fn ⟨"f", [], 0, false⟩)] [] (some 1) none

/-- Witness for C4: A's import "pa" resolves while rooted in A's context,
is invisible once resolution is rooted in B's context, while A's
function "f" still resolves there. -/
theorem import_isolation_witness :
    BlockCtx.find c4st1 c4g1 "pa" = some (.pkgPath "x/pa") ∧
    BlockCtx.find c4st2 c4g2 "pa" = none ∧
    lookupA c4g2.syms "f" = some (.fn ⟨"f", [], 0, false⟩) ∧
    BlockCtx.find c4st2 c4g2 "f" = some (.fn ⟨"f", [], 0, false⟩) :=
  let t := loadFile_import_isolation_decl_sharing ⟨[], 0⟩ (.mk [] [] none none) c4A c4B
    c4st1 c4st2 c4g1 c4g2 rfl rfl
  ⟨t.1 "pa" "x/pa" rfl rfl, t.2.2.1 "pa" rfl rfl,
    (t.2.2.2 "f" ⟨"f", [], 0, false⟩ rfl).1,
    (t.2.2.2 "f" ⟨"f", [], 0, false⟩ rfl).2⟩

end Cl
